import Mathlib

/-!
Shallow embedding of the `isu` dialogue-manager library (src/src/lib.rs) and
proofs about its Domain algorithms, semantic-type parsing/display, generic
containers, database consultation and turn-controller loop.

Conventions of the embedding:
* Rust `String` is modelled as `Str := List Char` (all inputs of interest are
  ASCII, where Rust byte slicing coincides with character-list operations;
  `Char.isAlpha`/`Char.isAlphanum` model `is_alphabetic`/`is_alphanumeric`
  on that fragment).
* `HashMap` values observed only through `get`/`insert` are modelled as
  association lists with first-match lookup; `insert` conses a new binding,
  which shadows older ones exactly as a map overwrite does.
* `HashSet` values are modelled as duplicate-free lists (insertion appends
  when the element is absent).
* Fallible Rust functions returning `Result` are modelled with `Except`;
  functions that can `panic!`/`unwrap` on an error path return `RRes`,
  whose `panicked` constructor marks the process abort.
-/

abbrev Str : Type := List Char

/-- Embed a Lean string literal as the character-list model of a Rust string. -/
def str (s : String) : Str := s.data

/-- Rust `str::starts_with` on a string pattern. -/
def strStarts (s p : Str) : Bool := decide (s.take p.length = p)

/-- Rust `str::ends_with` on a string pattern. -/
def strEnds (s p : Str) : Bool := decide (s.drop (s.length - p.length) = p)

/-- Rust slicing `&s[..s.len()-n]` (drop the last `n` characters). -/
def dropRight (s : Str) (n : Nat) : Str := s.take (s.length - n)

/-- Rust `str::split(c)`: split at every occurrence of `c`, keeping empty pieces. -/
def splitChar (c : Char) : Str → List Str
  | [] => [[]]
  | x :: xs =>
    if x = c then [] :: splitChar c xs
    else
      match splitChar c xs with
      | [] => [[x]]
      | h :: t => (x :: h) :: t

/-- First-match lookup in an association list (models `HashMap::get`). -/
def alookup {α : Type} (m : List (Str × α)) (k : Str) : Option α :=
  (m.find? (fun p => decide (p.1 = k))).map (·.2)

/-- Models `HashMap::insert`: the new binding shadows any earlier one. -/
def ainsert {α : Type} (m : List (Str × α)) (k : Str) (v : α) : List (Str × α) :=
  (k, v) :: m

/-- Models `HashSet::insert` for insertion-ordered duplicate-free lists. -/
def tsetAdd (l : List Str) (x : Str) : List Str :=
  if l.contains x then l else l ++ [x]

-- ------------------------------------------------------------------
-- Generic containers backing the Information State (lib.rs: Value,
-- Stack, StackSet, TSet).  The `type_constraint` closure is modelled as
-- an optional boolean predicate.  The formatted-value part of the Rust
-- error messages is dropped; only the constant text is kept.
-- ------------------------------------------------------------------

/-- `Value<T>`: a single optional value with an allowed-value set and an
optional type-checking predicate. -/
structure Value (T : Type) where
  value : Option T
  allowed_values : List T
  type_constraint : Option (T → Bool)

/-- `Value::set`: validate against the allowed set, then the predicate;
return the error and the untouched cell on failure. -/
def Value.set {T : Type} [DecidableEq T] (v : Value T) (x : T) :
    Except String Unit × Value T :=
  if !v.allowed_values.isEmpty && !v.allowed_values.contains x then
    (.error "is not among allowed values", v)
  else
    match v.type_constraint with
    | some check =>
      if !check x then (.error "does not match type constraint", v)
      else (.ok (), { v with value := some x })
    | none => (.ok (), { v with value := some x })

/-- `Stack<T>` with an optional type-checking predicate. -/
structure Stack (T : Type) where
  elements : List T
  type_constraint : Option (T → Bool)

/-- `Stack::push`: validate, then append at the top (end of the list). -/
def Stack.push {T : Type} (st : Stack T) (x : T) :
    Except String Unit × Stack T :=
  match st.type_constraint with
  | some check =>
    if !check x then (.error "does not match type constraint", st)
    else (.ok (), { st with elements := st.elements ++ [x] })
  | none => (.ok (), { st with elements := st.elements ++ [x] })

/-- `Stack::top`: the last element of the underlying vector. -/
def Stack.top {T : Type} (st : Stack T) : Except String T :=
  match st.elements.getLast? with
  | some v => .ok v
  | none => .error "Stack is empty"

/-- `StackSet<T>`: a unique stack built on `Stack`. -/
structure StackSet (T : Type) where
  stack : Stack T

/-- `StackSet::contains`. -/
def StackSet.contains {T : Type} [DecidableEq T] (s : StackSet T) (x : T) : Bool :=
  s.stack.elements.contains x

/-- `StackSet::push`: remove any existing occurrence (`retain`), then push. -/
def StackSet.push {T : Type} [DecidableEq T] (s : StackSet T) (x : T) :
    Except String Unit × StackSet T :=
  let s1 : StackSet T :=
    if s.contains x then
      ⟨{ s.stack with elements := s.stack.elements.filter (fun y => decide (y ≠ x)) }⟩
    else s
  let r := s1.stack.push x
  (r.1, ⟨r.2⟩)

/-- The invariant every `StackSet` reachable through its API satisfies:
no duplicates, and every stored element passes the type constraint. -/
def StackSet.WF {T : Type} (s : StackSet T) : Prop :=
  s.stack.elements.Nodup ∧
  ∀ c, s.stack.type_constraint = some c → ∀ x ∈ s.stack.elements, c x = true

/-- `TSet<T>`: a set with an optional type-checking predicate. -/
structure TSet (T : Type) where
  elements : List T
  type_constraint : Option (T → Bool)

/-- `TSet::add`: validate, then insert (no-op when already present). -/
def TSet.add {T : Type} [DecidableEq T] (ts : TSet T) (x : T) :
    Except String Unit × TSet T :=
  match ts.type_constraint with
  | some check =>
    if !check x then (.error "does not match type constraint", ts)
    else (.ok (), { ts with elements := if ts.elements.contains x then ts.elements else ts.elements ++ [x] })
  | none => (.ok (), { ts with elements := if ts.elements.contains x then ts.elements else ts.elements ++ [x] })

-- ------------------------------------------------------------------
-- Semantic types (lib.rs: Atomic, Ind, Pred0, Pred1, Prop, ShortAns,
-- YesNo, Ans, WhQ, YNQ, AltQ, Question) with their textual constructors
-- and Display implementations.
-- ------------------------------------------------------------------

/-- Result of a Rust computation that may return `Ok`, return `Err`, or
abort the process (`unwrap` of an `Err`, `panic!`). -/
inductive RRes (α : Type) where
  | ok (a : α)
  | err (e : String)
  | panicked
deriving DecidableEq, Repr

/-- `Atomic`: a validated identifier. -/
structure Atomic where
  content : Str
deriving DecidableEq, Repr

/-- The character set accepted by `Atomic::new` after the first character. -/
def validAtomChar (c : Char) : Bool :=
  c.isAlphanum || c = '_' || c = '-' || c = '+' || c = ':'

/-- `Atomic::new`: non-empty, not "yes"/"no", alphabetic first character,
all characters alphanumeric or `_ - + :`. -/
def Atomic.new (atom : Str) : Except String Atomic :=
  if atom.isEmpty || atom = str "yes" || atom = str "no" then
    .error "Invalid atom"
  else if !((atom.headD ' ').isAlpha) then
    .error "Atom must start with a letter"
  else if !(atom.all validAtomChar) then
    .error "Invalid characters in atom"
  else .ok ⟨atom⟩

/-- `Ind` wraps an `Atomic`. -/
structure Ind where
  atom : Atomic
deriving DecidableEq, Repr

/-- `Ind::new`. -/
def Ind.new (s : Str) : Except String Ind := (Atomic.new s).map Ind.mk

/-- `Pred0` wraps an `Atomic`. -/
structure Pred0 where
  atom : Atomic
deriving DecidableEq, Repr

/-- `Pred0::new`. -/
def Pred0.new (s : Str) : Except String Pred0 := (Atomic.new s).map Pred0.mk

/-- `Pred1` wraps an `Atomic`. -/
structure Pred1 where
  atom : Atomic
deriving DecidableEq, Repr

/-- `Pred1::new`. -/
def Pred1.new (s : Str) : Except String Pred1 := (Atomic.new s).map Pred1.mk

/-- `Prop` (named `Prop'` because `Prop` is reserved in Lean): predicate,
optional individual argument, polarity. -/
structure Prop' where
  pred : Pred0
  ind : Option Ind
  yes : Bool
deriving DecidableEq, Repr

/-- Common tail of `Prop::new`: parse the predicate (`Pred0::new(..)?`),
then the optional argument, whose `Ind::new(..).unwrap()` on a malformed
string is a panic. -/
def Prop'.build (predStr : Str) (indStr : Option Str) (yes : Bool) : RRes Prop' :=
  match Pred0.new predStr with
  | .error e => .err e
  | .ok pred =>
    match indStr with
    | none => .ok ⟨pred, none, yes⟩
    | some istr =>
      match Ind.new istr with
      | .ok i => .ok ⟨pred, some i, yes⟩
      | .error _ => .panicked

/-- Body of `Prop::new` after the leading `-` has been handled: when the
string ends in `)` and splitting the rest at `(` gives exactly two pieces,
they are the predicate and the argument; otherwise the whole string is the
predicate. -/
def Prop'.newAux (ps : Str) (yes : Bool) : RRes Prop' :=
  if ps.getLast? = some ')' then
    match splitChar '(' (dropRight ps 1) with
    | [a, b] => Prop'.build a (some b) yes
    | _ => Prop'.build ps none yes
  else Prop'.build ps none yes

/-- `Prop::new`: optional leading `-` for negative polarity, then the body. -/
def Prop'.new (s : Str) : RRes Prop' :=
  if s.head? = some '-' then Prop'.newAux (s.drop 1) false
  else Prop'.newAux s true

/-- `Display for Prop`: `[-]pred(ind)` — parentheses are always printed. -/
def Prop'.toStr (p : Prop') : Str :=
  (if p.yes then [] else ['-']) ++ p.pred.atom.content ++ ['('] ++
    (match p.ind with | some i => i.atom.content | none => []) ++ [')']

/-- `ShortAns`: individual plus polarity. -/
structure ShortAns where
  ind : Ind
  yes : Bool
deriving DecidableEq, Repr

/-- `ShortAns::new`: optional leading `-`, then an individual. -/
def ShortAns.new (s : Str) : Except String ShortAns :=
  if s.head? = some '-' then (Ind.new (s.drop 1)).map (⟨·, false⟩)
  else (Ind.new s).map (⟨·, true⟩)

/-- `Display for ShortAns`. -/
def ShortAns.toStr (a : ShortAns) : Str :=
  (if a.yes then [] else ['-']) ++ a.ind.atom.content

/-- `YesNo`. -/
structure YesNo where
  yes : Bool
deriving DecidableEq, Repr

/-- `YesNo::new`. -/
def YesNo.new (s : Str) : Except String YesNo :=
  if s = str "yes" then .ok ⟨true⟩
  else if s = str "no" then .ok ⟨false⟩
  else .error "Invalid YesNo"

/-- `Display for YesNo`. -/
def YesNo.toStr (y : YesNo) : Str := if y.yes then str "yes" else str "no"

/-- `Ans`: proposition, short answer, or yes/no. -/
inductive Ans where
  | prop (p : Prop')
  | shortAns (s : ShortAns)
  | yesNo (y : YesNo)
deriving DecidableEq, Repr

/-- `Ans::new` parse dispatch: literal yes/no, then no-parentheses short
answer, then `..(..)` proposition, otherwise a parse error. -/
def Ans.new (s : Str) : RRes Ans :=
  if s = str "yes" || s = str "no" then
    match YesNo.new s with
    | .ok y => .ok (.yesNo y)
    | .error e => .err e
  else if !(s.contains '(') && !(s.contains ')') then
    match ShortAns.new s with
    | .ok a => .ok (.shortAns a)
    | .error e => .err e
  else if s.contains '(' && s.getLast? = some ')' then
    match Prop'.new s with
    | .ok p => .ok (.prop p)
    | .err e => .err e
    | .panicked => .panicked
  else .err "Could not parse answer"

/-- `Display for Ans`. -/
def Ans.toStr : Ans → Str
  | .prop p => p.toStr
  | .shortAns a => a.toStr
  | .yesNo y => y.toStr

/-- `WhQ` wraps a one-place predicate. -/
structure WhQ where
  pred : Pred1
deriving DecidableEq, Repr

/-- `WhQ::new`: strip an optional `?x.…(x)` wrapper, then parse a `Pred1`. -/
def WhQ.new (s : Str) : Except String WhQ :=
  let p := if strStarts s (str "?x.") && strEnds s (str "(x)") then
    dropRight (s.drop 3) 3
  else s
  (Pred1.new p).map WhQ.mk

/-- `Display for WhQ`: note the space the source prints before `(x)`. -/
def WhQ.toStr (w : WhQ) : Str := str "?x." ++ w.pred.atom.content ++ str " (x)"

/-- `YNQ` wraps a proposition. -/
structure YNQ where
  prop : Prop'
deriving DecidableEq, Repr

/-- `YNQ::new`: strip an optional leading `?`, then parse a proposition. -/
def YNQ.new (s : Str) : RRes YNQ :=
  let s := if s.head? = some '?' then s.drop 1 else s
  match Prop'.new s with
  | .ok p => .ok ⟨p⟩
  | .err e => .err e
  | .panicked => .panicked

/-- `Display for YNQ`. -/
def YNQ.toStr (y : YNQ) : Str := '?' :: y.prop.toStr

/-- `AltQ`: a list of yes/no questions (programmatic constructor only). -/
structure AltQ where
  ynqs : List YNQ
deriving DecidableEq, Repr

/-- `Display for AltQ`. -/
def AltQ.toStr (a : AltQ) : Str :=
  str "\x7b " ++ List.intercalate (str " | ") (a.ynqs.map YNQ.toStr) ++ str " \x7d"

/-- `Question`: wh-, yes/no, or alternative question. -/
inductive Question where
  | whq (w : WhQ)
  | ynq (y : YNQ)
  | altq (a : AltQ)
deriving DecidableEq, Repr

/-- `Question::new`: `?x.pred(x)` makes a `WhQ`, a leading `?` makes a
`YNQ`, anything else is a parse error. -/
def Question.new (s : Str) : RRes Question :=
  if strStarts s (str "?x.") && strEnds s (str "(x)") then
    match WhQ.new (dropRight (s.drop 3) 3) with
    | .ok w => .ok (.whq w)
    | .error e => .err e
  else if s.head? = some '?' then
    match YNQ.new (s.drop 1) with
    | .ok y => .ok (.ynq y)
    | .err e => .err e
    | .panicked => .panicked
  else .err "Could not parse question"

/-- `Display for Question`. -/
def Question.toStr : Question → Str
  | .whq w => w.toStr
  | .ynq y => y.toStr
  | .altq a => a.toStr

/-- `Pred1::apply`: re-validate the predicate name as a `Pred0` and attach
the individual with positive polarity. -/
def Pred1.apply (p : Pred1) (i : Ind) : Except String Prop' :=
  match Pred0.new p.atom.content with
  | .error e => .error e
  | .ok pr => .ok ⟨pr, some i, true⟩

-- ------------------------------------------------------------------
-- Domain registry (lib.rs: Domain).
-- ------------------------------------------------------------------

/-- `Domain`: vocabulary plus the question→plan table.  Plans are the
`Vec<String>` of the source. -/
structure Domain where
  preds0 : List Str
  preds1 : List (Str × Str)
  sorts : List (Str × List Str)
  inds : List (Str × Str)
  plans : List (Str × List Str)

/-- `Domain::new`: derive the individual→sort index from the sort table;
the plan table starts empty. -/
def Domain.new (preds0 : List Str) (preds1 : List (Str × Str))
    (sorts : List (Str × List Str)) : Domain :=
  { preds0 := preds0
    preds1 := preds1
    sorts := sorts
    inds := sorts.flatMap (fun p => p.2.map (fun i => (i, p.1)))
    plans := [] }

/-- `Domain::add_plan`: insert the plan under the question's textual form.
No typecheck is performed and no result is reported. -/
def Domain.add_plan (d : Domain) (trigger : Question) (plan : List Str) : Domain :=
  { d with plans := ainsert d.plans trigger.toStr plan }

/-- `Domain::relevant`. -/
def Domain.relevant (d : Domain) (answer : Ans) (question : Question) : Bool :=
  match answer, question with
  | .prop p, .whq w => decide (p.pred.atom.content = w.pred.atom.content)
  | .shortAns sa, .whq w =>
    let sort1 := alookup d.inds sa.ind.atom.content
    let sort2 := alookup d.preds1 w.pred.atom.content
    sort1.isSome && sort2.isSome && decide (sort1 = sort2)
  | .yesNo _, .ynq _ => true
  | .prop p, .ynq y => decide (p = y.prop)
  | .prop p, .altq a => a.ynqs.any (fun y => decide (p = y.prop))
  | .yesNo _, .altq _ => true
  | _, _ => false

/-- `Domain::resolves`: requires relevance, then the per-shape conditions. -/
def Domain.resolves (d : Domain) (answer : Ans) (question : Question) : Bool :=
  if d.relevant answer question then
    match answer, question with
    | .yesNo _, .ynq _ => true
    | .shortAns sa, .whq _ => sa.yes
    | .prop p, .whq _ => p.yes
    | _, _ => false
  else false

/-- `Domain::combine`.  The `assert!(relevant)` and the `panic!` of the
catch-all arm are modelled by `RRes.panicked`. -/
def Domain.combine (d : Domain) (question : Question) (answer : Ans) : RRes Prop' :=
  if !(d.relevant answer question) then .panicked
  else
    match question, answer with
    | .whq w, .shortAns sa =>
      match w.pred.apply sa.ind with
      | .error e => .err e
      | .ok p => .ok (if !sa.yes then { p with yes := false } else p)
    | .ynq y, .yesNo yn =>
      .ok (if y.prop.yes ≠ yn.yes then { y.prop with yes := !y.prop.yes } else y.prop)
    | _, _ =>
      match answer with
      | .prop p => .ok p
      | _ => .panicked

/-- `Domain::get_plan`: look the plan up by the question's textual form and
push its steps in reverse onto a fresh stack (top = first step). -/
def Domain.get_plan (d : Domain) (question : Question) : Option (Stack Str) :=
  (alookup d.plans question.toStr).map (fun plan =>
    plan.reverse.foldl (fun st c => (st.push c).2) ⟨[], none⟩)

-- ------------------------------------------------------------------
-- Domain-relative typechecking (lib.rs: the Type trait impls).
-- ------------------------------------------------------------------

/-- `Ind::typecheck`: registered in the individual→sort index. -/
def Ind.typecheck (i : Ind) (c : Domain) : Except String Unit :=
  if (alookup c.inds i.atom.content).isSome then .ok ()
  else .error "not in context individuals"

/-- `Pred0::typecheck`: member of the zero-place predicate set. -/
def Pred0.typecheck (p : Pred0) (c : Domain) : Except String Unit :=
  if c.preds0.contains p.atom.content then .ok ()
  else .error "not in context 0-place predicates"

/-- `Pred1::typecheck`: key of the one-place predicate table. -/
def Pred1.typecheck (p : Pred1) (c : Domain) : Except String Unit :=
  if (alookup c.preds1 p.atom.content).isSome then .ok ()
  else .error "not in context 1-place predicates"

/-- `Prop::typecheck`: predicate, then argument, then the sort agreement
between the argument and the predicate's declared sort (when declared). -/
def Prop'.typecheck (p : Prop') (c : Domain) : Except String Unit :=
  match p.pred.typecheck c with
  | .error e => .error e
  | .ok _ =>
    match p.ind with
    | none => .ok ()
    | some i =>
      match i.typecheck c with
      | .error e => .error e
      | .ok _ =>
        match alookup c.preds1 p.pred.atom.content with
        | some srt =>
          if alookup c.inds i.atom.content = some srt then .ok ()
          else .error "Sort mismatch"
        | none => .ok ()

/-- `WhQ::typecheck`. -/
def WhQ.typecheck (w : WhQ) (c : Domain) : Except String Unit :=
  w.pred.typecheck c

/-- `YNQ::typecheck`. -/
def YNQ.typecheck (y : YNQ) (c : Domain) : Except String Unit :=
  y.prop.typecheck c

/-- `AltQ::typecheck`: first failure wins. -/
def AltQ.typecheck (a : AltQ) (c : Domain) : Except String Unit :=
  a.ynqs.foldl (fun acc y =>
    match acc with
    | .error e => .error e
    | .ok _ => y.typecheck c) (.ok ())

/-- `Question::typecheck`. -/
def Question.typecheck (q : Question) (c : Domain) : Except String Unit :=
  match q with
  | .whq w => w.typecheck c
  | .ynq y => y.typecheck c
  | .altq a => a.typecheck c

-- ------------------------------------------------------------------
-- Travel database (lib.rs: TravelDB).  An entry is the string-keyed map
-- of the source, modelled as an association list.
-- ------------------------------------------------------------------

/-- Outcome of `consult_db`, whose Rust body can only return a proposition
or abort through `expect`/`unwrap`. -/
inductive DBRes where
  | ok (p : Prop')
  | panicked (msg : String)
deriving DecidableEq, Repr

/-- `TravelDB`. -/
structure TravelDB where
  entries : List (List (Str × Str))

/-- `TravelDB::get_context`: the first context proposition carrying the
predicate decides the result (its argument, if any). -/
def TravelDB.get_context (_db : TravelDB) (context : List Prop') (pred : Str) :
    Option Str :=
  match context.find? (fun p => decide (p.pred.atom.content = pred)) with
  | some p => p.ind.map (·.atom.content)
  | none => none

/-- `TravelDB::lookup_entry`: first entry matching on from/to/day. -/
def TravelDB.lookup_entry (db : TravelDB) (depart_city dest_city day : Str) :
    Option (List (Str × Str)) :=
  db.entries.find? (fun e =>
    decide (alookup e (str "from") = some depart_city) &&
    decide (alookup e (str "to") = some dest_city) &&
    decide (alookup e (str "day") = some day))

/-- `TravelDB::consult_db`: read the three context fields (defaulting to the
empty string), look the entry up — `expect("Entry not found")` aborts on a
miss — and build the price proposition with two further `unwrap`s. -/
def TravelDB.consult_db (db : TravelDB) (_question : Question)
    (context : List Prop') : DBRes :=
  let depart_city := (db.get_context context (str "depart_city")).getD []
  let dest_city := (db.get_context context (str "dest_city")).getD []
  let day := (db.get_context context (str "depart_day")).getD []
  match db.lookup_entry depart_city dest_city day with
  | none => .panicked "Entry not found"
  | some entry =>
    match alookup entry (str "price") with
    | none => .panicked "Price not found"
    | some price =>
      match Pred0.new (str "price") with
      | .error e => .panicked e
      | .ok pr =>
        match Ind.new price with
        | .error e => .panicked e
        | .ok i => .ok ⟨pr, some i, true⟩

-- ------------------------------------------------------------------
-- Grammar (lib.rs: SimpleGenGrammar) and the IBIS controller loop.
--
-- The controller's `StandardMIVS` fields are the generic containers as
-- installed by `init_mivs`: `input`/`output` carry an always-true type
-- constraint, `latest_speaker` allows USR/SYS, `program_state` allows
-- RUN/QUIT, and the move containers carry no constraint.  Under those
-- fixed constraints every `set`/`push`/`add` the controller performs
-- succeeds (each value set is in the allowed list), so the `Value` cells
-- are modelled by their contents and the `unwrap`s never fire.  The
-- `TSet` fields are modelled as insertion-ordered duplicate-free lists.
-- The scripted `DemoInputHandler` models the input source: `read_line`
-- pops the queue and returns end-of-input (`None`) once it is empty.
-- ------------------------------------------------------------------

/-- `Speaker`. -/
inductive Speaker where
  | USR
  | SYS
deriving DecidableEq, Repr

/-- `ProgramState`. -/
inductive ProgramState where
  | RUN
  | QUIT
deriving DecidableEq, Repr

/-- Result of `SimpleGenGrammar::interpret`: a move set, no interpretation,
or an abort inside `Question::new`/`Ans::new`. -/
inductive InterpRes where
  | moves (ms : List Str)
  | noInterp
  | panicked
deriving DecidableEq, Repr

/-- `SimpleGenGrammar::interpret`: quit/exit, then a question (an Ask
move), then an answer (an Answer move), otherwise no interpretation. -/
def SimpleGenGrammar.interpret (input : Str) : InterpRes :=
  if input = str "quit" || input = str "exit" then
    .moves [str "Quit()"]
  else
    match Question.new input with
    | .ok _ => .moves [str "Ask('" ++ input ++ str "')"]
    | .panicked => .panicked
    | .err _ =>
      match Ans.new input with
      | .ok _ => .moves [str "Answer(" ++ input ++ str ")"]
      | .panicked => .panicked
      | .err _ => .noInterp

/-- `SimpleGenGrammar::generate_move`: table lookup with literal fallback. -/
def SimpleGenGrammar.generate_move (forms : List (Str × Str)) (m : Str) : Str :=
  (alookup forms m).getD m

/-- `SimpleGenGrammar::join_phrases`: join with single spaces, adding a
period to each phrase not already ending in `.`, `?` or `!`. -/
def SimpleGenGrammar.join_phrases (phrases : List Str) : Str :=
  phrases.foldl (fun result p =>
    let result := if result.isEmpty then result else result ++ [' ']
    let result := result ++ p
    if !(p.getLast? = some '.') && !(p.getLast? = some '?') &&
        !(p.getLast? = some '!') then
      result ++ ['.']
    else result) []

/-- `SimpleGenGrammar::generate`. -/
def SimpleGenGrammar.generate (forms : List (Str × Str)) (moves : List Str) : Str :=
  SimpleGenGrammar.join_phrases (moves.map (SimpleGenGrammar.generate_move forms))

/-- `StandardMIVS` under the `init_mivs` constraints (see the comment
above): each `Value` cell is modelled by its contents. -/
structure MIVS where
  input : Option Str
  latest_speaker : Option Speaker
  latest_moves : List Str
  next_moves : List Str
  output : Option Str
  program_state : Option ProgramState
deriving DecidableEq, Repr

/-- The controller state the loop acts on: the MIVS, the scripted input
queue and the grammar's form table.  `select` and `update` are empty
placeholders in the source and touch neither the Domain nor the database,
so those collaborators do not appear in the loop state. -/
structure CtrlState where
  mivs : MIVS
  script : List Str
  forms : List (Str × Str)
deriving DecidableEq, Repr

/-- `IBISController::select`: placeholder. -/
def IBISController.select (s : CtrlState) : CtrlState := s

/-- `IBISController::update`: placeholder. -/
def IBISController.update (s : CtrlState) : CtrlState := s

/-- `IBISController::generate`: collect next-moves into a set and render. -/
def IBISController.generate (s : CtrlState) : CtrlState :=
  let moves_set := s.mivs.next_moves.foldl tsetAdd []
  { s with mivs := { s.mivs with
      output := some (SimpleGenGrammar.generate s.forms moves_set) } }

/-- `IBISController::output`: print (I/O dropped), set speaker to SYS, move
next-moves into latest-moves, clear next-moves. -/
def IBISController.output (s : CtrlState) : CtrlState :=
  { s with mivs := { s.mivs with
      latest_speaker := some .SYS
      latest_moves := s.mivs.next_moves.foldl tsetAdd []
      next_moves := [] } }

/-- `IBISController::input`: pop the scripted queue; on end-of-input set
`program_state` to QUIT and change nothing else. -/
def IBISController.input (s : CtrlState) : CtrlState :=
  match s.script with
  | i :: rest =>
    { s with
      script := rest
      mivs := { s.mivs with input := some i, latest_speaker := some .USR } }
  | [] =>
    { s with mivs := { s.mivs with program_state := some .QUIT } }

/-- `IBISController::interpret`: clear latest-moves, then (for a non-empty
stored input) ask the grammar; `none` models a panic inside parsing. -/
def IBISController.interpret (s : CtrlState) : Option CtrlState :=
  let cleared : CtrlState := { s with mivs := { s.mivs with latest_moves := [] } }
  match s.mivs.input with
  | some inp =>
    if inp.isEmpty then some cleared
    else
      match SimpleGenGrammar.interpret inp with
      | .moves ms =>
        some { cleared with mivs := { cleared.mivs with
          latest_moves := ms.foldl tsetAdd [] } }
      | .noInterp => some cleared
      | .panicked => none
  | none => some cleared

/-- One iteration of the `control` while-loop body: select; when next-moves
is non-empty generate/output/update; then input, interpret, update. -/
def IBISController.stepIter (s : CtrlState) : Option CtrlState :=
  let s := IBISController.select s
  let s := if s.mivs.next_moves.isEmpty then s
    else IBISController.update (IBISController.output (IBISController.generate s))
  let s := IBISController.input s
  match IBISController.interpret s with
  | some s1 => some (IBISController.update s1)
  | none => none

/-- The `control` while-loop, fuel-bounded: the QUIT test is performed
before each iteration; `none` models a panic inside an iteration. -/
def IBISController.control (fuel : Nat) (s : CtrlState) : Option CtrlState :=
  match fuel with
  | 0 => some s
  | n + 1 =>
    if s.mivs.program_state = some ProgramState.QUIT then some s
    else
      match IBISController.stepIter s with
      | some s1 => IBISController.control n s1
      | none => none

-- ------------------------------------------------------------------
-- Concrete instances used by the claims.
-- ------------------------------------------------------------------

/-- The travel domain of `examples/travel.rs` (vocabulary only). -/
def travelDomain : Domain :=
  Domain.new
    [str "return", str "need-visa"]
    [(str "price", str "int"), (str "how", str "means"),
     (str "dest_city", str "city"), (str "depart_city", str "city"),
     (str "depart_day", str "day"), (str "class", str "flight_class"),
     (str "return_day", str "day")]
    [(str "means", [str "plane", str "train"]),
     (str "city", [str "paris", str "london", str "berlin"]),
     (str "day", [str "today", str "tomorrow"]),
     (str "flight_class", [str "first", str "second"])]

/-- A domain with an empty vocabulary. -/
def emptyDomain : Domain := Domain.new [] [] []

/-- A question whose predicate `foo` is absent from `emptyDomain`. -/
def c1question : Question := .ynq ⟨⟨⟨⟨str "foo"⟩⟩, none, true⟩⟩

/-- A plan (the plan steps are bare strings in the source). -/
def c1plan : List Str := [str "Findout('?x.bar (x)')"]

/-- A mid-dialogue controller state: the user's previous utterance "yes" is
still stored in `input`, and the scripted source is exhausted. -/
def c8state : CtrlState :=
  { mivs :=
      { input := some (str "yes")
        latest_speaker := some .USR
        latest_moves := []
        next_moves := []
        output := some (str "Hello.")
        program_state := some .RUN }
    script := []
    forms := [(str "Greet()", str "Hello"),
              (str "icm:neg*sem", str "I don't understand")] }

-- ==================================================================
-- Supporting lemmas.
-- ==================================================================

theorem alookup_ainsert_self {α : Type} (m : List (Str × α)) (k : Str) (v : α) :
    alookup (ainsert m k v) k = some v := by
  simp [alookup, ainsert]

theorem stackFold_elements (l acc : List Str) :
    (l.foldl (fun st c => (st.push c).2) (⟨acc, none⟩ : Stack Str)) =
      ⟨acc ++ l, none⟩ := by
  induction l generalizing acc with
  | nil => simp
  | cons x xs ih =>
    have h1 : ((⟨acc, none⟩ : Stack Str).push x).2 = ⟨acc ++ [x], none⟩ := rfl
    rw [List.foldl_cons, h1, ih]
    simp

theorem Atomic_new_ok {s : Str} {a : Atomic} (h : Atomic.new s = .ok a) :
    a.content = s := by
  simp only [Atomic.new] at h
  split at h
  · cases h
  split at h
  · cases h
  split at h
  · cases h
  · cases h; rfl

theorem Ind_new_ok {s : Str} {i : Ind} (h : Ind.new s = .ok i) :
    i.atom.content = s := by
  cases ha : Atomic.new s with
  | error e => simp [Ind.new, ha, Except.map] at h
  | ok a =>
    simp only [Ind.new, ha, Except.map] at h
    cases h
    exact Atomic_new_ok ha

theorem Pred0_new_ok {s : Str} {p : Pred0} (h : Pred0.new s = .ok p) :
    p.atom.content = s := by
  cases ha : Atomic.new s with
  | error e => simp [Pred0.new, ha, Except.map] at h
  | ok a =>
    simp only [Pred0.new, ha, Except.map] at h
    cases h
    exact Atomic_new_ok ha

theorem Pred1_new_ok {s : Str} {p : Pred1} (h : Pred1.new s = .ok p) :
    p.atom.content = s := by
  cases ha : Atomic.new s with
  | error e => simp [Pred1.new, ha, Except.map] at h
  | ok a =>
    simp only [Pred1.new, ha, Except.map] at h
    cases h
    exact Atomic_new_ok ha

theorem splitChar_ne_nil (c : Char) (l : Str) : splitChar c l ≠ [] := by
  induction l with
  | nil => simp [splitChar]
  | cons x xs ih =>
    simp only [splitChar]
    split
    · simp
    · split
      · simp
      · simp

theorem splitChar_singleton (c : Char) :
    ∀ (l b : Str), splitChar c l = [b] → l = b := by
  intro l
  induction l with
  | nil =>
    intro b h
    simp [splitChar] at h
    exact h.symm
  | cons x xs ih =>
    intro b h
    simp only [splitChar] at h
    split at h
    · obtain ⟨-, h2⟩ := List.cons.inj h
      exact absurd h2 (splitChar_ne_nil c xs)
    · split at h
      · next heq =>
        exact absurd heq (splitChar_ne_nil c xs)
      · next h1 t1 heq =>
        obtain ⟨hb, ht⟩ := List.cons.inj h
        subst ht
        have hxs : xs = h1 := ih h1 heq
        rw [hxs, hb]

theorem splitChar_pair (c : Char) :
    ∀ (l a b : Str), splitChar c l = [a, b] → l = a ++ c :: b := by
  intro l
  induction l with
  | nil =>
    intro a b h
    simp [splitChar] at h
  | cons x xs ih =>
    intro a b h
    simp only [splitChar] at h
    split at h
    · next hx =>
      obtain ⟨ha, h2⟩ := List.cons.inj h
      have hxs : xs = b := splitChar_singleton c xs b h2
      rw [← ha, hxs, hx]
      rfl
    · split at h
      · obtain ⟨-, ht⟩ := List.cons.inj h
        exact absurd ht (by simp)
      · next h1 t1 heq =>
        obtain ⟨ha, ht⟩ := List.cons.inj h
        subst ht
        have hxs : xs = h1 ++ c :: b := ih h1 b heq
        rw [hxs, ← ha]
        rfl

theorem head?_decomp {l : Str} {c : Char} (h : l.head? = some c) :
    l = c :: l.tail := by
  cases l with
  | nil => cases h
  | cons x xs => cases h; rfl

theorem getLast?_decomp {l : Str} {c : Char} (h : l.getLast? = some c) :
    l.dropLast ++ [c] = l :=
  List.dropLast_append_getLast? c (Option.mem_def.mpr h)

theorem build_ok {a : Str} {io : Option Str} {yes : Bool} {p : Prop'}
    (h : Prop'.build a io yes = .ok p) :
    p.yes = yes ∧ p.pred.atom.content = a ∧
      ((io = none ∧ p.ind = none) ∨
       (∃ b i, io = some b ∧ p.ind = some i ∧ i.atom.content = b)) := by
  cases hp : Pred0.new a with
  | error e => simp [Prop'.build, hp] at h
  | ok pred =>
    simp only [Prop'.build, hp] at h
    cases io with
    | none =>
      cases h
      exact ⟨rfl, Pred0_new_ok hp, .inl ⟨rfl, rfl⟩⟩
    | some istr =>
      cases hi : Ind.new istr with
      | error e => simp [hi] at h
      | ok i =>
        simp only [hi] at h
        cases h
        exact ⟨rfl, Pred0_new_ok hp, .inr ⟨istr, i, rfl, rfl, Ind_new_ok hi⟩⟩

theorem newAux_rt {ps : Str} {yes : Bool} {p : Prop'}
    (h : Prop'.newAux ps yes = .ok p) (hi : p.ind.isSome = true) :
    ∃ i, p.ind = some i ∧
      (p.pred.atom.content ++ ('(' :: i.atom.content)) ++ [')'] = ps ∧
      p.yes = yes := by
  simp only [Prop'.newAux] at h
  split at h
  · next hclose =>
    split at h
    · next a b heq =>
      obtain ⟨hyes, hpred, hind⟩ := build_ok h
      rcases hind with ⟨-, hnone⟩ | ⟨b2, i, hsome, hpi, hic⟩
      · rw [hnone] at hi; cases hi
      · cases hsome
        refine ⟨i, hpi, ?_, hyes⟩
        have hsplit : dropRight ps 1 = a ++ '(' :: b := splitChar_pair '(' _ a b heq
        have hdl : dropRight ps 1 = ps.dropLast := by
          simp [dropRight, List.dropLast_eq_take]
        have hlast : ps.dropLast ++ [')'] = ps := getLast?_decomp hclose
        rw [hpred, hic, ← hlast, ← hdl, hsplit]
    · obtain ⟨-, -, hind⟩ := build_ok h
      rcases hind with ⟨-, hnone⟩ | ⟨b', i, hsome, -, -⟩
      · rw [hnone] at hi; cases hi
      · cases hsome
  · obtain ⟨-, -, hind⟩ := build_ok h
    rcases hind with ⟨-, hnone⟩ | ⟨b', i, hsome, -, -⟩
    · rw [hnone] at hi; cases hi
    · cases hsome

theorem opt_pair_iff {α : Type} [DecidableEq α] (o1 o2 : Option α) :
    (o1.isSome && o2.isSome && decide (o1 = o2)) = true ↔
      ∃ a, o1 = some a ∧ o2 = some a := by
  cases o1 <;> cases o2 <;> simp [eq_comm]

theorem filter_ne_length {T : Type} [DecidableEq T] :
    ∀ (l : List T) (x : T), l.Nodup → x ∈ l →
      (l.filter (fun y => decide (y ≠ x))).length + 1 = l.length := by
  intro l x
  induction l with
  | nil => intro _ hx; cases hx
  | cons h t ih =>
    intro hnd hx
    obtain ⟨hnotmem, hndt⟩ := List.nodup_cons.mp hnd
    rcases List.mem_cons.mp hx with rfl | hxt
    · have hfilt : t.filter (fun y => decide (y ≠ x)) = t := by
        rw [List.filter_eq_self]
        intro a ha
        simp only [ne_eq, decide_eq_true_eq]
        intro heq
        exact hnotmem (heq ▸ ha)
      simp [List.filter_cons, hfilt]
      intro a ha heq
      exact hnotmem (heq ▸ ha)
    · have hne : h ≠ x := fun hh => hnotmem (hh ▸ hxt)
      have ihr := ih hndt hxt
      have hcond : decide (h ≠ x) = true := by simp [hne]
      rw [List.filter_cons, if_pos hcond]
      simp only [List.length_cons]
      omega

theorem Stack_push_cases {T : Type} (st : Stack T) (x : T) :
    ((st.push x).1 = .ok () ∧ (st.push x).2.elements = st.elements ++ [x] ∧
      (st.push x).2.type_constraint = st.type_constraint ∧
      (∀ c, st.type_constraint = some c → c x = true)) ∨
    ((st.push x).2 = st ∧
      (st.push x).1 = .error "does not match type constraint" ∧
      ∃ c, st.type_constraint = some c ∧ c x = false) := by
  cases htc : st.type_constraint with
  | none =>
    refine .inl ⟨?_, ?_, ?_, ?_⟩ <;> simp [Stack.push, htc]
  | some c =>
    by_cases hcx : c x = true
    · refine .inl ⟨?_, ?_, ?_, ?_⟩
      · simp [Stack.push, htc, hcx]
      · simp [Stack.push, htc, hcx]
      · simp [Stack.push, htc, hcx]
      · intro c2 hc2
        cases hc2
        exact hcx
    · have hcx2 : c x = false := by revert hcx; cases c x <;> simp
      refine .inr ⟨?_, ?_, c, rfl, hcx2⟩ <;> simp [Stack.push, htc, hcx2]

theorem Value_set_cases {T : Type} [DecidableEq T] (v : Value T) (x : T) :
    ((v.set x).1 = .ok () ∧ (v.set x).2 = { v with value := some x }) ∨
    ((∃ e, (v.set x).1 = Except.error e) ∧ (v.set x).2 = v) := by
  simp only [Value.set]
  split
  · exact .inr ⟨⟨_, rfl⟩, rfl⟩
  · split
    · split
      · exact .inr ⟨⟨_, rfl⟩, rfl⟩
      · exact .inl ⟨rfl, rfl⟩
    · exact .inl ⟨rfl, rfl⟩

theorem TSet_add_cases {T : Type} [DecidableEq T] (ts : TSet T) (x : T) :
    ((ts.add x).1 = .ok ()) ∨
    ((ts.add x).1 = .error "does not match type constraint" ∧ (ts.add x).2 = ts) := by
  simp only [TSet.add]
  split
  · split
    · exact .inr ⟨rfl, rfl⟩
    · exact .inl rfl
  · exact .inl rfl

theorem StackSet_empty_WF {T : Type} (tc : Option (T → Bool)) :
    (⟨⟨[], tc⟩⟩ : StackSet T).WF :=
  ⟨List.nodup_nil, fun _ _ x hx => absurd hx (List.not_mem_nil x)⟩

theorem StackSet_push_WF {T : Type} [DecidableEq T] (s : StackSet T) (x : T)
    (hwf : s.WF) : (s.push x).2.WF := by
  obtain ⟨hnd, hcs⟩ := hwf
  simp only [StackSet.push]
  set s1 : StackSet T :=
    if s.contains x then
      ⟨{ s.stack with elements := s.stack.elements.filter (fun y => decide (y ≠ x)) }⟩
    else s with hs1
  have hnd1 : s1.stack.elements.Nodup := by
    rw [hs1]; split
    · exact hnd.filter _
    · exact hnd
  have htc1 : s1.stack.type_constraint = s.stack.type_constraint := by
    rw [hs1]; split <;> rfl
  have hcs1 : ∀ c, s1.stack.type_constraint = some c →
      ∀ y ∈ s1.stack.elements, c y = true := by
    intro c hc y hy
    rw [htc1] at hc
    refine hcs c hc y ?_
    revert hy
    rw [hs1]; split
    · exact fun hy => (List.mem_filter.mp hy).1
    · exact id
  have hnm1 : x ∉ s1.stack.elements := by
    rw [hs1]; split
    · intro hmem
      have := (List.mem_filter.mp hmem).2
      simp at this
    · next hcon =>
      intro hmem
      exact hcon (by simp [StackSet.contains, List.contains, List.elem_iff, hmem])
  rcases Stack_push_cases s1.stack x with ⟨-, hel, htc2, hok⟩ | ⟨heq, -, -⟩
  · constructor
    · rw [hel, List.nodup_append]
      refine ⟨hnd1, List.nodup_singleton x, ?_⟩
      intro a ha hax
      have hax2 : a = x := by simpa using hax
      exact hnm1 (hax2 ▸ ha)
    · intro c hc y hy
      rw [htc2, htc1] at hc
      rw [hel] at hy
      rcases List.mem_append.mp hy with hy1 | hy2
      · exact hcs1 c (htc1.trans hc) y hy1
      · have : y = x := by simpa using hy2
        exact this ▸ hok c (htc1 ▸ hc)
  · rw [heq]
    exact ⟨hnd1, hcs1⟩

-- ==================================================================
-- Claim theorems.
-- ==================================================================

/-- Claim C1, counterexample: `add_plan` performs no typechecking.  For the
empty-vocabulary domain and a question whose predicate `foo` is not in the
domain, the question fails `typecheck`, yet `add_plan` changes the plan
table and binds the plan under the question's textual form — contradicting
the claim that the plan is rejected and the table left unchanged. -/
theorem C1_counterexample :
    Question.typecheck c1question emptyDomain =
      .error "not in context 0-place predicates" ∧
    (emptyDomain.add_plan c1question c1plan).plans ≠ emptyDomain.plans ∧
    alookup (emptyDomain.add_plan c1question c1plan).plans c1question.toStr =
      some c1plan := by
  refine ⟨rfl, by decide, by decide⟩

/-- Claim C1, amended: `Domain::add_plan` typechecks neither the question
nor the plan steps and reports nothing; for every domain, question and plan
— including ill-typed ones — the plan is unconditionally inserted under the
question's textual form, and `get_plan` afterwards returns its steps
(pushed in reverse onto a fresh unconstrained stack). -/
theorem C1_thm (d : Domain) (q : Question) (plan : List Str) :
    (d.add_plan q plan).get_plan q = some ⟨plan.reverse, none⟩ := by
  simp only [Domain.get_plan, Domain.add_plan, alookup_ainsert_self, Option.map_some']
  rw [stackFold_elements]
  simp

/-- Claim C6: on a database miss `consult_db` does not return a recoverable
failure — it aborts via `expect("Entry not found")`.  With an empty entry
table every consultation, for every question and context, hits this panic. -/
theorem C6_thm (q : Question) (context : List Prop') :
    TravelDB.consult_db ⟨[]⟩ q context = .panicked "Entry not found" := rfl

/-- Claim C10: registering a second plan for the same question silently
replaces the first: the plan table binds the question's textual form to the
second plan and `get_plan` returns the second plan's steps.  (`add_plan`
returns nothing, so no error can be reported.) -/
theorem C10_thm (d : Domain) (q : Question) (p1 p2 : List Str) :
    alookup ((d.add_plan q p1).add_plan q p2).plans q.toStr = some p2 ∧
    ((d.add_plan q p1).add_plan q p2).get_plan q = some ⟨p2.reverse, none⟩ := by
  constructor
  · exact alookup_ainsert_self _ _ _
  · simp only [Domain.get_plan, Domain.add_plan, alookup_ainsert_self, Option.map_some']
    rw [stackFold_elements]
    simp

/-- Claim C2: the complete truth table of `Domain::relevant`.  A proposition
answers a WhQ iff the predicate names agree; a short answer answers a WhQ
iff the domain registers the same sort for the answer's individual as the
one declared for the WhQ's predicate; a yes/no answer is relevant to every
YNQ and AltQ; a proposition is relevant to a YNQ iff it equals its
proposition and to an AltQ iff it equals one of its propositions; all
remaining combinations are irrelevant. -/
theorem C2_thm :
    (∀ (d : Domain) (p : Prop') (w : WhQ),
      d.relevant (.prop p) (.whq w) = true ↔
        p.pred.atom.content = w.pred.atom.content) ∧
    (∀ (d : Domain) (sa : ShortAns) (w : WhQ),
      d.relevant (.shortAns sa) (.whq w) = true ↔
        ∃ srt, alookup d.inds sa.ind.atom.content = some srt ∧
               alookup d.preds1 w.pred.atom.content = some srt) ∧
    (∀ (d : Domain) (yn : YesNo) (y : YNQ),
      d.relevant (.yesNo yn) (.ynq y) = true) ∧
    (∀ (d : Domain) (yn : YesNo) (a : AltQ),
      d.relevant (.yesNo yn) (.altq a) = true) ∧
    (∀ (d : Domain) (p : Prop') (y : YNQ),
      d.relevant (.prop p) (.ynq y) = true ↔ p = y.prop) ∧
    (∀ (d : Domain) (p : Prop') (a : AltQ),
      d.relevant (.prop p) (.altq a) = true ↔ ∃ y ∈ a.ynqs, p = y.prop) ∧
    (∀ (d : Domain) (sa : ShortAns) (y : YNQ),
      d.relevant (.shortAns sa) (.ynq y) = false) ∧
    (∀ (d : Domain) (sa : ShortAns) (a : AltQ),
      d.relevant (.shortAns sa) (.altq a) = false) ∧
    (∀ (d : Domain) (yn : YesNo) (w : WhQ),
      d.relevant (.yesNo yn) (.whq w) = false) := by
  refine ⟨?_, ?_, ?_, ?_, ?_, ?_, ?_, ?_, ?_⟩ <;> intro d a b
  · simp [Domain.relevant]
  · cases h1 : alookup d.inds a.ind.atom.content <;>
      cases h2 : alookup d.preds1 b.pred.atom.content <;>
        simp [Domain.relevant, h1, h2, eq_comm]
  · rfl
  · rfl
  · simp [Domain.relevant]
  · simp [Domain.relevant, List.any_eq_true]
  · rfl
  · rfl
  · rfl

/-- Claim C3: `Domain::resolves` — a yes/no answer resolves every YNQ
(either polarity); a short answer (resp. proposition) resolves a WhQ iff it
is relevant and its polarity is positive; every other combination —
including the relevant yes/no-to-AltQ and proposition-to-YNQ/AltQ cases —
never resolves; and resolution always implies relevance. -/
theorem C3_thm :
    (∀ (d : Domain) (yn : YesNo) (y : YNQ),
      d.resolves (.yesNo yn) (.ynq y) = true) ∧
    (∀ (d : Domain) (sa : ShortAns) (w : WhQ),
      d.resolves (.shortAns sa) (.whq w) =
        (d.relevant (.shortAns sa) (.whq w) && sa.yes)) ∧
    (∀ (d : Domain) (p : Prop') (w : WhQ),
      d.resolves (.prop p) (.whq w) =
        (d.relevant (.prop p) (.whq w) && p.yes)) ∧
    (∀ (d : Domain) (p : Prop') (y : YNQ),
      d.resolves (.prop p) (.ynq y) = false) ∧
    (∀ (d : Domain) (p : Prop') (a : AltQ),
      d.resolves (.prop p) (.altq a) = false) ∧
    (∀ (d : Domain) (yn : YesNo) (a : AltQ),
      d.resolves (.yesNo yn) (.altq a) = false) ∧
    (∀ (d : Domain) (sa : ShortAns) (y : YNQ),
      d.resolves (.shortAns sa) (.ynq y) = false) ∧
    (∀ (d : Domain) (sa : ShortAns) (a : AltQ),
      d.resolves (.shortAns sa) (.altq a) = false) ∧
    (∀ (d : Domain) (yn : YesNo) (w : WhQ),
      d.resolves (.yesNo yn) (.whq w) = false) ∧
    (∀ (d : Domain) (a : Ans) (q : Question),
      d.resolves a q = true → d.relevant a q = true) := by
  refine ⟨?_, ?_, ?_, ?_, ?_, ?_, ?_, ?_, ?_, ?_⟩
  · intro d yn y
    simp [Domain.resolves, Domain.relevant]
  · intro d sa w
    cases hr : d.relevant (.shortAns sa) (.whq w) <;>
      simp [Domain.resolves, hr]
  · intro d p w
    cases hr : d.relevant (.prop p) (.whq w) <;>
      simp [Domain.resolves, hr]
  · intro d p y
    cases hr : d.relevant (.prop p) (.ynq y) <;>
      simp [Domain.resolves, hr]
  · intro d p a
    cases hr : d.relevant (.prop p) (.altq a) <;>
      simp [Domain.resolves, hr]
  · intro d yn a
    simp [Domain.resolves, Domain.relevant]
  · intro d sa y
    simp [Domain.resolves, Domain.relevant]
  · intro d sa a
    simp [Domain.resolves, Domain.relevant]
  · intro d yn w
    simp [Domain.resolves, Domain.relevant]
  · intro d a q h
    cases hr : d.relevant a q with
    | true => rfl
    | false =>
      simp [Domain.resolves, hr] at h

/-- Claim C3, witness: a "yes" answer to the YNQ `?return()` resolves it in
the travel domain, so by the implication of `C3_thm` it is also relevant. -/
theorem C3_witness :
    travelDomain.relevant (.yesNo ⟨true⟩)
      (.ynq ⟨⟨⟨⟨str "return"⟩⟩, none, true⟩⟩) = true :=
  C3_thm.2.2.2.2.2.2.2.2.2 travelDomain (.yesNo ⟨true⟩)
    (.ynq ⟨⟨⟨⟨str "return"⟩⟩, none, true⟩⟩) (by decide)

/-- Claim C4: `Domain::combine` under the `relevant` precondition.  For
(WhQ, ShortAnswer) it applies the WhQ's predicate to the answer's
individual and ANDs the resulting polarity with the short answer's; for
(YNQ, YesNo) it returns the YNQ's proposition with polarity flipped iff the
YesNo polarity disagrees with the stored one; any Proposition answer is
returned unchanged.  Concretely, `combine(WhQ("dest_city"),
ShortAnswer("paris", positive))` is the positive proposition displayed
"dest_city(paris)", and combining the YNQ displayed "?return()" with
YesNo(false) yields the proposition displayed "-return()". -/
theorem C4_thm :
    (∀ (d : Domain) (w : WhQ) (sa : ShortAns) (p : Prop'),
      d.relevant (.shortAns sa) (.whq w) = true →
      w.pred.apply sa.ind = .ok p →
      d.combine (.whq w) (.shortAns sa) = .ok { p with yes := p.yes && sa.yes }) ∧
    (∀ (d : Domain) (y : YNQ) (yn : YesNo),
      d.relevant (.yesNo yn) (.ynq y) = true →
      d.combine (.ynq y) (.yesNo yn) =
        .ok { y.prop with
              yes := if yn.yes = y.prop.yes then y.prop.yes else !y.prop.yes }) ∧
    (∀ (d : Domain) (q : Question) (p : Prop'),
      d.relevant (.prop p) q = true →
      d.combine q (.prop p) = .ok p) ∧
    (travelDomain.combine (.whq ⟨⟨⟨str "dest_city"⟩⟩⟩)
        (.shortAns ⟨⟨⟨str "paris"⟩⟩, true⟩) =
      .ok ⟨⟨⟨str "dest_city"⟩⟩, some ⟨⟨str "paris"⟩⟩, true⟩ ∧
     Prop'.toStr ⟨⟨⟨str "dest_city"⟩⟩, some ⟨⟨str "paris"⟩⟩, true⟩ =
       str "dest_city(paris)") ∧
    (∀ (d : Domain),
      Question.toStr (.ynq ⟨⟨⟨⟨str "return"⟩⟩, none, true⟩⟩) = str "?return()" ∧
      d.combine (.ynq ⟨⟨⟨⟨str "return"⟩⟩, none, true⟩⟩) (.yesNo ⟨false⟩) =
        .ok ⟨⟨⟨str "return"⟩⟩, none, false⟩ ∧
      Prop'.toStr ⟨⟨⟨str "return"⟩⟩, none, false⟩ = str "-return()") := by
  refine ⟨?_, ?_, ?_, ⟨by decide, by decide⟩, ?_⟩
  · intro d w sa p hrel happ
    cases hy : sa.yes <;>
      cases p with
      | mk pr pi pyes =>
        simp [Domain.combine, hrel, happ, hy]
  · intro d y yn hrel
    rcases y with ⟨⟨pr, pi, pyes⟩⟩
    have hrel2 : ∀ pp : Prop',
        d.relevant (.yesNo yn) (.ynq ⟨pp⟩) = true := fun _ => rfl
    by_cases h : pyes = yn.yes
    · simp [Domain.combine, hrel2, h]
    · have h2 : ¬ (yn.yes = pyes) := fun hh => h hh.symm
      simp [Domain.combine, hrel2, h, h2]
  · intro d q p hrel
    cases q <;> simp [Domain.combine, hrel]
  · intro d
    refine ⟨by decide, ?_, by decide⟩
    have hrel : d.relevant (.yesNo ⟨false⟩)
        (.ynq ⟨⟨⟨⟨str "return"⟩⟩, none, true⟩⟩) = true := rfl
    simp [Domain.combine, hrel]

/-- Claim C4, witness: combining the WhQ for `dest_city` with the negative
short answer "-paris" in the travel domain, through the first conjunct of
`C4_thm` — the applied proposition's positive polarity is ANDed with the
answer's negative polarity, giving the negative proposition. -/
theorem C4_witness :
    travelDomain.combine (.whq ⟨⟨⟨str "dest_city"⟩⟩⟩)
        (.shortAns ⟨⟨⟨str "paris"⟩⟩, false⟩) =
      .ok ⟨⟨⟨str "dest_city"⟩⟩, some ⟨⟨str "paris"⟩⟩, true && false⟩ :=
  C4_thm.1 travelDomain ⟨⟨⟨str "dest_city"⟩⟩⟩ ⟨⟨⟨str "paris"⟩⟩, false⟩
    ⟨⟨⟨str "dest_city"⟩⟩, some ⟨⟨str "paris"⟩⟩, true⟩ (by decide) rfl

/-- Claim C5, counterexample: display is not the inverse of parsing.  The
canonical WhQ string "?x.city(x)" parses, but displays as "?x.city (x)"
(stray space), which is not the input and itself fails to re-parse; and the
zero-argument proposition parsed from "expensive" displays as
"expensive()", whose re-parse panics (inside `Ind::new(..).unwrap()` on the
empty argument). -/
theorem C5_counterexample :
    Question.new (str "?x.city(x)") = .ok (.whq ⟨⟨⟨str "city"⟩⟩⟩) ∧
    Question.toStr (.whq ⟨⟨⟨str "city"⟩⟩⟩) = str "?x.city (x)" ∧
    str "?x.city (x)" ≠ str "?x.city(x)" ∧
    Question.new (str "?x.city (x)") = .err "Invalid characters in atom" ∧
    Prop'.new (str "expensive") = .ok ⟨⟨⟨str "expensive"⟩⟩, none, true⟩ ∧
    Prop'.toStr ⟨⟨⟨str "expensive"⟩⟩, none, true⟩ = str "expensive()" ∧
    Prop'.new (str "expensive()") = .panicked := by
  refine ⟨by decide, by decide, by decide, by decide, by decide, by decide,
    by decide⟩

/-- Claim C5, amended: the round-trip `display(parse(s)) = s` holds for
`Atomic`, `Individual`, `Pred0`, `Pred1`, `YesNo`, `ShortAnswer`, and for
every `Proposition` string that carries an individual argument; it fails
for `WhQ` (display inserts a space before "(x)"), and for `YNQ` and
argument-less `Propositions` (display appends "()", which the parser
panics on — see the counterexample). -/
theorem C5_thm :
    (∀ (s : Str) (a : Atomic), Atomic.new s = .ok a → a.content = s) ∧
    (∀ (s : Str) (i : Ind), Ind.new s = .ok i → i.atom.content = s) ∧
    (∀ (s : Str) (p : Pred0), Pred0.new s = .ok p → p.atom.content = s) ∧
    (∀ (s : Str) (p : Pred1), Pred1.new s = .ok p → p.atom.content = s) ∧
    (∀ (s : Str) (y : YesNo), YesNo.new s = .ok y → y.toStr = s) ∧
    (∀ (s : Str) (a : ShortAns), ShortAns.new s = .ok a → a.toStr = s) ∧
    (∀ (s : Str) (p : Prop'), Prop'.new s = .ok p → p.ind.isSome = true →
      p.toStr = s) := by
  refine ⟨?_, ?_, ?_, ?_, ?_, ?_, ?_⟩
  · intro s a h
    exact Atomic_new_ok h
  · intro s i h
    exact Ind_new_ok h
  · intro s p h
    exact Pred0_new_ok h
  · intro s p h
    exact Pred1_new_ok h
  · intro s y h
    simp only [YesNo.new] at h
    split at h
    · next hs => cases h; rw [hs]; rfl
    split at h
    · next hs => cases h; rw [hs]; rfl
    · cases h
  · intro s a h
    simp only [ShortAns.new] at h
    split at h
    · next hh =>
      cases hi : Ind.new (s.drop 1) with
      | error e => rw [hi] at h; cases h
      | ok i =>
        rw [hi] at h
        cases h
        have := Ind_new_ok hi
        rw [ShortAns.toStr]
        simp only [Bool.false_eq_true, if_false, this, List.drop_one]
        exact (head?_decomp hh).symm
    · cases hi : Ind.new s with
      | error e => rw [hi] at h; cases h
      | ok i =>
        rw [hi] at h
        cases h
        have := Ind_new_ok hi
        rw [ShortAns.toStr]
        simp [this]
  · intro s p h hi
    simp only [Prop'.new] at h
    split at h
    · next hh =>
      obtain ⟨i, hpi, hcore, hyes⟩ := newAux_rt h hi
      rw [Prop'.toStr, hyes, hpi]
      simp only [Bool.false_eq_true, if_false]
      rw [List.drop_one] at hcore
      conv_rhs => rw [head?_decomp hh]
      rw [← hcore]
      simp
    · obtain ⟨i, hpi, hcore, hyes⟩ := newAux_rt h hi
      rw [Prop'.toStr, hyes, hpi]
      simp only [if_true]
      rw [← hcore]
      simp

/-- Claim C5, witness: the positive round trips of `C5_thm` at concrete
inputs — "hello", "paris", "expensive", "city", "yes", "-paris" and
"city(paris)". -/
theorem C5_witness :
    Atomic.content ⟨str "hello"⟩ = str "hello" ∧
    Atomic.content (Ind.atom ⟨⟨str "paris"⟩⟩) = str "paris" ∧
    Atomic.content (Pred0.atom ⟨⟨str "expensive"⟩⟩) = str "expensive" ∧
    Atomic.content (Pred1.atom ⟨⟨str "city"⟩⟩) = str "city" ∧
    YesNo.toStr ⟨true⟩ = str "yes" ∧
    ShortAns.toStr ⟨⟨⟨str "paris"⟩⟩, false⟩ = str "-paris" ∧
    Prop'.toStr ⟨⟨⟨str "city"⟩⟩, some ⟨⟨str "paris"⟩⟩, true⟩ = str "city(paris)" :=
  ⟨C5_thm.1 (str "hello") ⟨str "hello"⟩ rfl,
   C5_thm.2.1 (str "paris") ⟨⟨str "paris"⟩⟩ rfl,
   C5_thm.2.2.1 (str "expensive") ⟨⟨str "expensive"⟩⟩ rfl,
   C5_thm.2.2.2.1 (str "city") ⟨⟨str "city"⟩⟩ rfl,
   C5_thm.2.2.2.2.1 (str "yes") ⟨true⟩ rfl,
   C5_thm.2.2.2.2.2.1 (str "-paris") ⟨⟨⟨str "paris"⟩⟩, false⟩ rfl,
   C5_thm.2.2.2.2.2.2 (str "city(paris)")
     ⟨⟨⟨str "city"⟩⟩, some ⟨⟨str "paris"⟩⟩, true⟩ rfl rfl⟩

/-- Claim C7: pushing an element already contained in a `StackSet` (in any
state satisfying the API invariant `WF` — no duplicates, all elements pass
the constraint — as the QUD does) succeeds, leaves the element on top,
keeps the length unchanged, and leaves exactly one occurrence of it; no
push introduces a duplicate.  (`StackSet_empty_WF` and `StackSet_push_WF`
show `WF` holds in every state reachable through the API.) -/
theorem C7_thm {T : Type} [DecidableEq T] (s : StackSet T) (x : T)
    (hwf : s.WF) (hmem : s.contains x = true) :
    (s.push x).1 = .ok () ∧
    (s.push x).2.stack.top = .ok x ∧
    (s.push x).2.stack.elements.length = s.stack.elements.length ∧
    (s.push x).2.stack.elements.count x = 1 := by
  obtain ⟨hnd, hcs⟩ := hwf
  have hx : x ∈ s.stack.elements := by
    simpa [StackSet.contains, List.contains, List.elem_iff] using hmem
  simp only [StackSet.push, hmem, if_true]
  set f : Stack T :=
    { s.stack with elements := s.stack.elements.filter (fun y => decide (y ≠ x)) }
    with hf
  rcases Stack_push_cases f x with ⟨hok, hel, -, -⟩ | ⟨-, -, c, htc, hcx⟩
  · have hlen : (s.stack.elements.filter (fun y => decide (y ≠ x))).length + 1 =
        s.stack.elements.length := filter_ne_length _ _ hnd hx
    have hnot : x ∉ s.stack.elements.filter (fun y => decide (y ≠ x)) := by
      intro hmem2
      have := (List.mem_filter.mp hmem2).2
      simp at this
    refine ⟨hok, ?_, ?_, ?_⟩
    · rw [Stack.top, hel]
      simp [List.getLast?_concat]
    · rw [hel]
      simpa using hlen
    · rw [hel, List.count_append]
      rw [List.count_eq_zero.mpr hnot]
      simp
  · exact absurd (hcs c htc x hx) (by simp [hcx])

/-- Claim C7, witness: pushing the already-present `2` onto the unique
stack holding `[1, 2, 3]` (bottom to top `1, 2, 3`, no constraint). -/
theorem C7_witness :
    (StackSet.push (⟨⟨[1, 2, 3], none⟩⟩ : StackSet Nat) 2).1 = .ok () ∧
    (StackSet.push (⟨⟨[1, 2, 3], none⟩⟩ : StackSet Nat) 2).2.stack.top = .ok 2 ∧
    (StackSet.push (⟨⟨[1, 2, 3], none⟩⟩ : StackSet Nat) 2).2.stack.elements.length =
      (⟨⟨[1, 2, 3], none⟩⟩ : StackSet Nat).stack.elements.length ∧
    (StackSet.push (⟨⟨[1, 2, 3], none⟩⟩ : StackSet Nat) 2).2.stack.elements.count 2 = 1 :=
  C7_thm ⟨⟨[1, 2, 3], none⟩⟩ 2
    ⟨by decide, fun c hc => by cases hc⟩ (by decide)

/-- Claim C9: the generic containers validate every insertion and reject
violations without mutating state — whenever `Value::set`, `Stack::push` or
`TSet::add` returns an error the container is exactly as before, and
whenever the constraint predicate rejects the element the operation does
return an error (for `Value`, the allowed-value set is also enforced). -/
theorem C9_thm {T : Type} [DecidableEq T] :
    (∀ (v : Value T) (x : T) (e : String),
      (v.set x).1 = .error e → (v.set x).2 = v) ∧
    (∀ (v : Value T) (x : T) (c : T → Bool),
      v.type_constraint = some c → c x = false →
      (v.set x).2 = v ∧ (v.set x).1 ≠ .ok ()) ∧
    (∀ (v : Value T) (x : T),
      v.allowed_values ≠ [] → v.allowed_values.contains x = false →
      (v.set x).2 = v ∧ (v.set x).1 = .error "is not among allowed values") ∧
    (∀ (st : Stack T) (x : T) (e : String),
      (st.push x).1 = .error e → (st.push x).2 = st) ∧
    (∀ (st : Stack T) (x : T) (c : T → Bool),
      st.type_constraint = some c → c x = false →
      (st.push x).2 = st ∧
      (st.push x).1 = .error "does not match type constraint") ∧
    (∀ (ts : TSet T) (x : T) (e : String),
      (ts.add x).1 = .error e → (ts.add x).2 = ts) ∧
    (∀ (ts : TSet T) (x : T) (c : T → Bool),
      ts.type_constraint = some c → c x = false →
      (ts.add x).2 = ts ∧
      (ts.add x).1 = .error "does not match type constraint") := by
  refine ⟨?_, ?_, ?_, ?_, ?_, ?_, ?_⟩
  · intro v x e h
    rcases Value_set_cases v x with ⟨h1, -⟩ | ⟨-, h2⟩
    · rw [h1] at h; cases h
    · exact h2
  · intro v x c hc hcx
    simp only [Value.set, hc, hcx]
    split
    · exact ⟨rfl, by simp⟩
    · simp
  · intro v x hne hc
    have h1 : v.allowed_values.isEmpty = false := by
      cases hv : v.allowed_values with
      | nil => exact absurd hv hne
      | cons a l => rfl
    have hm : x ∉ v.allowed_values := by
      intro hmem
      have h2 : v.allowed_values.contains x = true := by
        simpa [List.contains, List.elem_iff] using hmem
      rw [h2] at hc
      cases hc
    simp [Value.set, h1, hm]
  · intro st x e h
    rcases Stack_push_cases st x with ⟨h1, -, -, -⟩ | ⟨h2, -, -⟩
    · rw [h1] at h; cases h
    · exact h2
  · intro st x c hc hcx
    simp [Stack.push, hc, hcx]
  · intro ts x e h
    rcases TSet_add_cases ts x with h1 | ⟨-, h2⟩
    · rw [h1] at h; cases h
    · exact h2
  · intro ts x c hc hcx
    simp [TSet.add, hc, hcx]

/-- Claim C9, witness: `C9_thm` at concrete rejected insertions — setting
`2` into a `Value Nat` cell allowing only `1`, pushing `4` onto a stack
whose constraint requires elements below `3`, and adding `9` to a `TSet`
with the same constraint — each returns an error and leaves the container
unchanged. -/
theorem C9_witness :
    (Value.set (⟨none, [1], none⟩ : Value Nat) 2).2 = ⟨none, [1], none⟩ ∧
    ((Stack.push (⟨[5], some (fun y => decide (y < 3))⟩ : Stack Nat) 4).2 =
        ⟨[5], some (fun y => decide (y < 3))⟩ ∧
      (Stack.push (⟨[5], some (fun y => decide (y < 3))⟩ : Stack Nat) 4).1 =
        .error "does not match type constraint") ∧
    ((TSet.add (⟨[2], some (fun y => decide (y < 3))⟩ : TSet Nat) 9).2 =
        ⟨[2], some (fun y => decide (y < 3))⟩ ∧
      (TSet.add (⟨[2], some (fun y => decide (y < 3))⟩ : TSet Nat) 9).1 =
        .error "does not match type constraint") :=
  ⟨C9_thm.1 ⟨none, [1], none⟩ 2 "is not among allowed values" rfl,
   C9_thm.2.2.2.2.1 ⟨[5], some (fun y => decide (y < 3))⟩ 4
     (fun y => decide (y < 3)) rfl rfl,
   C9_thm.2.2.2.2.2.2 ⟨[2], some (fun y => decide (y < 3))⟩ 9
     (fun y => decide (y < 3)) rfl rfl⟩

/-- Claim C8, counterexample: when `read_line` hits end-of-input the
controller does set `program_state` to QUIT, but it does NOT stop
processing that iteration: in `c8state` (exhausted script, previous input
"yes" still stored) the same iteration goes on to interpret the stale
input, changing `latest_moves` to the Answer move — contradicting "no
interpretation of the previous input and no state update occur after the
transition". -/
theorem C8_counterexample :
    IBISController.stepIter c8state =
      some { c8state with mivs := { c8state.mivs with
        program_state := some .QUIT,
        latest_moves := [str "Answer(yes)"] } } ∧
    [str "Answer(yes)"] ≠ c8state.mivs.latest_moves := by
  refine ⟨by decide, by decide⟩

/-- Claim C8, amended: on end-of-input the input step sets `program_state`
to QUIT, but the iteration still runs `interpret` (re-interpreting the
stale previous input into `latest_moves`) and `update` before the loop
condition is re-checked; the loop itself does terminate exactly when
`program_state` is QUIT, tested before each iteration. -/
theorem C8_thm :
    (∀ (s : CtrlState) (inp : Str) (ms : List Str),
      s.script = [] → s.mivs.next_moves = [] → s.mivs.input = some inp →
      inp.isEmpty = false → SimpleGenGrammar.interpret inp = .moves ms →
      IBISController.stepIter s =
        some { s with mivs := { s.mivs with
          program_state := some .QUIT,
          latest_moves := ms.foldl tsetAdd [] } }) ∧
    (∀ (s : CtrlState) (n : Nat), s.mivs.program_state = some .QUIT →
      IBISController.control (n + 1) s = some s) ∧
    (∀ (s : CtrlState) (n : Nat), s.mivs.program_state ≠ some .QUIT →
      IBISController.control (n + 1) s =
        match IBISController.stepIter s with
        | some s1 => IBISController.control n s1
        | none => none) := by
  refine ⟨?_, ?_, ?_⟩
  · intro s inp ms h1 h2 h3 h4 h5
    obtain ⟨⟨mi, msp, mlm, mnm, mo, mps⟩, sc, fo⟩ := s
    simp only at h1 h2 h3
    subst h1 h2 h3
    simp [IBISController.stepIter, IBISController.select, IBISController.input,
      IBISController.interpret, IBISController.update, h4, h5]
  · intro s n h
    simp [IBISController.control, h]
  · intro s n h
    simp [IBISController.control, h]

/-- Claim C8, witness: `C8_thm` applied at a concrete end-of-input state
whose stale input is "quit": the iteration sets QUIT and still loads the
Quit move into `latest_moves`; and the loop exits at the next check. -/
theorem C8_witness :
    IBISController.stepIter
      { mivs := { input := some (str "quit")
                  latest_speaker := some .USR
                  latest_moves := []
                  next_moves := []
                  output := none
                  program_state := some .RUN }
        script := []
        forms := [] } =
      some { mivs := { input := some (str "quit")
                       latest_speaker := some .USR
                       latest_moves := [str "Quit()"]
                       next_moves := []
                       output := none
                       program_state := some .QUIT }
             script := []
             forms := [] } ∧
    IBISController.control 5
      { mivs := { input := some (str "quit")
                  latest_speaker := some .USR
                  latest_moves := [str "Quit()"]
                  next_moves := []
                  output := none
                  program_state := some .QUIT }
        script := []
        forms := [] } =
      some { mivs := { input := some (str "quit")
                       latest_speaker := some .USR
                       latest_moves := [str "Quit()"]
                       next_moves := []
                       output := none
                       program_state := some .QUIT }
             script := []
             forms := [] } :=
  ⟨C8_thm.1 _ (str "quit") [str "Quit()"] rfl rfl rfl rfl rfl,
   C8_thm.2.1 _ 4 rfl⟩
